import Mathlib

set_option maxRecDepth 20000

/-
Verification development for the streaming aggregate operator library
(be/src/exprs/aggregate-functions.cc). Each operator is embedded shallowly:
pure fields of the C structs become Lean structure fields, machine integers
become Int with explicit wrapping where overflow is reachable, doubles whose
claims only concern exact identities become rationals or exact fractions, and
the external execution context (allocator, hash library, PRNG) is threaded as
explicit parameters or oracles.
-/

namespace Impala

/-- Two's-complement wrap of an integer to a signed `w`-bit value. Models the
reinterpretation and overflow behaviour of the fixed-width `DecimalVal` union
fields (`val4` is `wrapSigned 32`, `val8` is `wrapSigned 64`, `val16` is
`wrapSigned 128`) and of `int64_t` addition. -/
def wrapSigned (w : Nat) (v : Int) : Int :=
  (v + ((2 ^ (w - 1) : Nat) : Int)) % ((2 ^ w : Nat) : Int) - ((2 ^ (w - 1) : Nat) : Int)

/-- State of the decimal average: `DecimalAvgState { DecimalVal sum; int64_t count }`.
The sum uses only the 16-byte `val16` field, modeled as an `Int` kept in signed
128-bit range by the update and merge functions. The row count is modeled as an
unbounded `Int`: the claims proved about it never approach `2^63`. -/
structure DecimalAvgState where
  sum : Int
  count : Int
deriving DecidableEq, Repr

/-- `AggregateFunctions::DecimalAvgUpdate`. A null input returns at once.
Otherwise the switch on the argument type's byte size picks which sub-field of
the `DecimalVal` union is added into `sum.val16`: `val4` for 4 bytes, `val8`
for 8 bytes, and — as written in the source — again `val4` for 16 bytes. The
input `v` is the logical 128-bit value stored in the union; the `val4`/`val8`
views are its low bytes reinterpreted as signed. The unreachable default case
(a DCHECK in the source) adds nothing. -/
def DecimalAvgUpdate (byteSize : Nat) (src : Option Int) (st : DecimalAvgState) :
    DecimalAvgState :=
  match src with
  | none => st
  | some v =>
    let addend : Int :=
      if byteSize = 4 then wrapSigned 32 v
      else if byteSize = 8 then wrapSigned 64 v
      else if byteSize = 16 then wrapSigned 32 v
      else 0
    { sum := wrapSigned 128 (st.sum + addend), count := st.count + 1 }

/-- `AggregateFunctions::DecimalAvgMerge`: adds the 128-bit sums (in `val16`)
and the counts of the two partial states. -/
def DecimalAvgMerge (src dst : DecimalAvgState) : DecimalAvgState :=
  { sum := wrapSigned 128 (dst.sum + src.sum), count := dst.count + src.count }

/-- `AggregateFunctions::CountUpdate`: increments the `int64_t` accumulator
when the input (of any type, hence the type parameter) is non-null. -/
def CountUpdate (σ : Type) (src : Option σ) (dst : Int) : Int :=
  match src with
  | none => dst
  | some _ => wrapSigned 64 (dst + 1)

/-- `AggregateFunctions::CountMerge`: `dst->val += src.val` on `int64_t`. -/
def CountMerge (src dst : Int) : Int :=
  wrapSigned 64 (dst + src)

/-- `AvgState { double sum; int64_t count }`. The double sum is modeled as an
exact rational and the count as an unbounded `Int`: the identities proved
about them are exact-arithmetic statements, as the spec itself treats
floating-point non-associativity separately. -/
structure AvgState where
  sum : ℚ
  count : Int
deriving DecidableEq, Repr

/-- `AggregateFunctions::AvgInit` allocates the 16-byte state and zeroes it. -/
def AvgInitState : AvgState := { sum := 0, count := 0 }

/-- `AggregateFunctions::AvgUpdate`: skips null, else adds the value to `sum`
and increments `count`. -/
def AvgUpdate (src : Option ℚ) (st : AvgState) : AvgState :=
  match src with
  | none => st
  | some v => { sum := st.sum + v, count := st.count + 1 }

/-- `AggregateFunctions::AvgMerge`: adds both fields of `src` into `dst`. -/
def AvgMerge (src dst : AvgState) : AvgState :=
  { sum := dst.sum + src.sum, count := dst.count + src.count }

/-- `AggregateFunctions::AvgGetValue`: null when `count == 0`, else the
quotient `sum / count`. -/
def AvgGetValue (st : AvgState) : Option ℚ :=
  if st.count = 0 then none else some (st.sum / (st.count : ℚ))

/-- `AggregateFunctions::TimestampAvgUpdate`: skips null, else converts the
timestamp to a number of days (`TimestampValue::FromTimestampVal`, an external
value-library call modeled as the parameter `conv`) and folds it like Avg. -/
def TimestampAvgUpdate (τ : Type) (conv : τ → ℚ) (src : Option τ) (st : AvgState) :
    AvgState :=
  match src with
  | none => st
  | some t => { sum := st.sum + conv t, count := st.count + 1 }

/-- `AggregateFunctions::Sum` (the generic template): skips null; a null
destination is first installed as zero (`InitZero`), then `dst->val += src.val`.
The numeric payload is modeled as an exact rational, covering the integer and
double instantiations for the identity claims proved here. -/
def Sum (src : Option ℚ) (dst : Option ℚ) : Option ℚ :=
  match src with
  | none => dst
  | some v => some (dst.getD 0 + v)

/-- `AggregateFunctions::SumUpdate` (decimal): skips null; a null destination
is installed as zero; then the declared precision selects the sub-field of the
source union added into the 128-bit accumulator: `val4` for precision ≤ 9,
`val8` for precision ≤ 19, `val16` otherwise. -/
def SumUpdate (precision : Nat) (src : Option Int) (dst : Option Int) : Option Int :=
  match src with
  | none => dst
  | some v =>
    let addend : Int :=
      if precision ≤ 9 then wrapSigned 32 v
      else if precision ≤ 19 then wrapSigned 64 v
      else v
    some (wrapSigned 128 (dst.getD 0 + addend))

/-- `AggregateFunctions::Min` (generic template and its specializations, which
differ only in the comparator used, here the parameter `lt`): skips null; a
null destination or a smaller source value installs the source. -/
def Min (σ : Type) (lt : σ → σ → Bool) (src : Option σ) (dst : Option σ) : Option σ :=
  match src with
  | none => dst
  | some v =>
    match dst with
    | none => some v
    | some d => if lt v d then some v else some d

/-- `AggregateFunctions::Max` (generic template and its specializations):
mirror image of `Min` with the comparator reversed. -/
def Max (σ : Type) (gt : σ → σ → Bool) (src : Option σ) (dst : Option σ) : Option σ :=
  match src with
  | none => dst
  | some v =>
    match dst with
    | none => some v
    | some d => if gt v d then some v else some d

/-- Delimiter used when the separator argument is null: the two bytes `", "`. -/
def DEFAULT_STRING_CONCAT_DELIM : List Nat := [44, 32]

/-- StringConcat intermediate state: the buffer starts with a
`StringConcatHeader` (an int holding the byte length of the first-seen
separator) followed by the accumulated payload, which itself begins with that
first separator. Strings are byte lists. -/
structure StringConcatState where
  sepLen : Nat
  payload : List Nat
deriving DecidableEq, Repr

/-- `AggregateFunctions::StringConcatUpdate`: skips a null value; substitutes
the default delimiter for a null separator; on a null state allocates the
header recording the separator length; then appends separator and value. -/
def StringConcatUpdate (src sep : Option (List Nat))
    (result : Option StringConcatState) : Option StringConcatState :=
  match src with
  | none => result
  | some s =>
    let sp := sep.getD DEFAULT_STRING_CONCAT_DELIM
    let base :=
      match result with
      | none => { sepLen := sp.length, payload := [] : StringConcatState }
      | some c => c
    some { base with payload := base.payload ++ sp ++ s }

/-- `AggregateFunctions::StringConcatMerge`: skips a null source; on a null
destination copies the header from the source; then appends the string portion
of the source (everything after its header) to the destination. -/
def StringConcatMerge (src : Option StringConcatState)
    (result : Option StringConcatState) : Option StringConcatState :=
  match src with
  | none => result
  | some s =>
    let base :=
      match result with
      | none => { sepLen := s.sepLen, payload := [] : StringConcatState }
      | some c => c
    some { base with payload := base.payload ++ s.payload }

/-- `AggregateFunctions::StringConcatFinalize`: a null state stays null;
otherwise the header and the first separator (whose length the header records)
are removed and the remaining bytes returned. -/
def StringConcatFinalize (src : Option StringConcatState) : Option (List Nat) :=
  match src with
  | none => none
  | some c => some (c.payload.drop c.sepLen)

/-- Number of rows of the probabilistic-counting bitmap (`NUM_PC_BITMAPS`). -/
def NUM_PC_BITMAPS : Nat := 64

/-- Bits per bitmap row (`PC_BITMAP_LENGTH`). -/
def PC_BITMAP_LENGTH : Nat := 32

/-- `__builtin_ctz` on a 32-bit value: index of the least significant set bit.
The source leaves `ctz(0)` undefined; the model returns 32 there, and every
place where the source could actually evaluate `ctz(0)` unguarded is
instrumented separately. -/
def ctz32 (n : Nat) : Nat :=
  ((List.range 32).findIdx? (fun i => (n >>> i) % 2 == 1)).getD 32

/-- `__builtin_ctzl` on a 64-bit value, with the same convention for 0. -/
def ctz64 (n : Nat) : Nat :=
  ((List.range 64).findIdx? (fun i => (n >>> i) % 2 == 1)).getD 64

/-- `SetDistinctEstimateBit`: the bitmap viewed as `uint32_t[64]`;
`int_bitmap[row_index] |= (1 << bit_index)`. The state is the list of the 64
row words. -/
def SetDistinctEstimateBit (words : List Nat) (rowIndex bitIndex : Nat) : List Nat :=
  words.set rowIndex (words.getD rowIndex 0 ||| (1 <<< bitIndex))

/-- `GetDistinctEstimateBit`: `(int_bitmap[row_index] & (1 << bit_index)) > 0`.
For `bitIndex = 32` the C shift is undefined; in this Nat model the tested bit
is simply absent (rows hold 32-bit words), and the finalize instrumentation
below records that such an access happened. -/
def GetDistinctEstimateBit (words : List Nat) (rowIndex bitIndex : Nat) : Bool :=
  (words.getD rowIndex 0) &&& (1 <<< bitIndex) != 0

/-- `AggregateFunctions::PcInit`: a zeroed 64-row bitmap. -/
def PcInitState : List Nat := List.replicate NUM_PC_BITMAPS 0

/-- `AggregateFunctions::PcUpdate`: skips null; for each of the 64 seeds
hashes the input (`AnyValUtil::Hash`, modeled from the spec as an arbitrary
32-bit seeded hash oracle `h`, since the value library is outside the embedded
sources) and sets bit `ctz(hash)` of that row, bit 31 when the hash is 0. -/
def PcUpdate (σ : Type) (h : σ → Nat → Nat) (input : Option σ) (dst : List Nat) :
    List Nat :=
  match input with
  | none => dst
  | some v =>
    (List.range NUM_PC_BITMAPS).foldl
      (fun bm i =>
        let hashValue := h v i
        let bitIndex := if hashValue = 0 then PC_BITMAP_LENGTH - 1 else ctz32 hashValue
        SetDistinctEstimateBit bm i bitIndex)
      dst

/-- `AggregateFunctions::PcsaUpdate`: skips null; hashes once with seed 0
(`h`, modeled from the spec as an arbitrary 32-bit hash oracle); the row is
`hash % 64` and the bit is `ctz(hash / 64)`, overridden to bit 31 when the
hash is 0. The returned flag instruments the one undefined case the source
leaves unguarded: `__builtin_ctz(0)` evaluated and its result used, which
happens exactly when the hash is nonzero but `hash / 64 == 0`. -/
def PcsaUpdate (σ : Type) (h : σ → Nat) (input : Option σ) (dst : List Nat) :
    List Nat × Bool :=
  match input with
  | none => (dst, false)
  | some v =>
    let hashValue := h v
    let rowIndex := hashValue % NUM_PC_BITMAPS
    let bitIndex :=
      if hashValue = 0 then PC_BITMAP_LENGTH - 1
      else ctz32 (hashValue / NUM_PC_BITMAPS)
    (SetDistinctEstimateBit dst rowIndex bitIndex,
     decide (hashValue ≠ 0 ∧ hashValue / NUM_PC_BITMAPS = 0))

/-- `AggregateFunctions::PcMerge`: bitwise OR of the two 256-byte images,
byte by byte (`*(dst->ptr + i) |= *(src.ptr + i)`); the states are byte
lists of length 256. -/
def PcMerge (src dst : List Nat) : List Nat :=
  List.zipWith (fun d s => d ||| s) dst src

/-- Leading-run loop of `DistinceEstimateFinalize` for row `i`, instrumented:
`while (GetDistinctEstimateBit(ptr, i, c) && c < PC_BITMAP_LENGTH) ++c`.
The bit access is the FIRST conjunct, so it is evaluated before the bound
check. The result is the final `row_bit_count` together with the list of bit
indices at which `GetDistinctEstimateBit` was evaluated. The fuel (33 at the
top-level call) covers every reachable iteration. -/
def PcRowRunAux (words : List Nat) (i : Nat) : Nat → Nat → Nat × List Nat
  | 0, c => (c, [])
  | fuel + 1, c =>
    if GetDistinctEstimateBit words i c ∧ c < PC_BITMAP_LENGTH then
      let r := PcRowRunAux words i fuel (c + 1)
      (r.1, c :: r.2)
    else (c, [c])

/-- Run length and accessed bit indices for row `i` of the bitmap. -/
def PcRowRun (words : List Nat) (i : Nat) : Nat × List Nat :=
  PcRowRunAux words i 33 0

/-- Emptiness test of `DistinceEstimateFinalize`: all state bytes zero, which
on the word view is all row words zero. -/
def DistinceEstimateIsEmpty (words : List Nat) : Bool :=
  words.all (fun w => w == 0)

/-- Sum of the per-row leading-run lengths computed by
`DistinceEstimateFinalize` (the `sum` variable before the floating-point
estimate `2^(sum/64) / PC_THETA` is formed). -/
def DistinceEstimateRunSum (words : List Nat) : Nat :=
  ((List.range NUM_PC_BITMAPS).map (fun i => (PcRowRun words i).1)).sum

/-- All `(row, bit)` pairs at which `DistinceEstimateFinalize` evaluates
`GetDistinctEstimateBit` while counting leading runs (empty when the bitmap is
empty, since the function then returns 0 before the loop). -/
def DistinceEstimateAccesses (words : List Nat) : List (Nat × Nat) :=
  if DistinceEstimateIsEmpty words then []
  else
    ((List.range NUM_PC_BITMAPS).map
      (fun i => (PcRowRun words i).2.map (fun c => (i, c)))).flatten

/-- Hyperloglog precision (`HLL_PRECISION`). -/
def HLL_PRECISION : Nat := 10

/-- Number of single-byte HLL registers (`HLL_LEN = 2^HLL_PRECISION`). -/
def HLL_LEN : Nat := 1024

/-- `AggregateFunctions::HllUpdate`: skips null; hashes with the 64-bit seeded
hash (`AnyValUtil::Hash64`, modeled from the spec as an arbitrary oracle `h`);
a zero hash is ignored; else the low 10 bits index a register which is raised
to `ctzl(hash >> 10) + 1` if that is larger. -/
def HllUpdate (σ : Type) (h : σ → Nat) (src : Option σ) (dst : List Nat) : List Nat :=
  match src with
  | none => dst
  | some v =>
    let hashValue := h v
    if hashValue ≠ 0 then
      let idx := hashValue &&& (HLL_LEN - 1)
      let firstOneBit := ctz64 (hashValue >>> HLL_PRECISION) + 1
      dst.set idx (max (dst.getD idx 0) firstOneBit)
    else dst

/-- `AggregateFunctions::HllMerge`: register-wise max of the two 1024-byte
images (`dst->ptr[i] = max(dst->ptr[i], src.ptr[i])`). -/
def HllMerge (src dst : List Nat) : List Nat :=
  List.zipWith (fun d s => max d s) dst src

/-- `KnuthVarianceState { double mean; double m2; int64_t count }`, doubles as
exact rationals. -/
structure KnuthVarianceState where
  mean : ℚ
  m2 : ℚ
  count : Int
deriving DecidableEq, Repr

/-- `ComputeKnuthVariance`: 0 for a single tuple, else `m2 / count` for the
population variance or `m2 / (count - 1)` for the sample variance. -/
def ComputeKnuthVariance (st : KnuthVarianceState) (pop : Bool) : ℚ :=
  if st.count = 1 then 0
  else if pop then st.m2 / (st.count : ℚ)
  else st.m2 / ((st.count : ℚ) - 1)

/-- `AggregateFunctions::KnuthVarUpdate`: skips null; Welford step
`temp = 1 + count; delta = x - mean; r = delta / temp; mean += r;
m2 += count * delta * r; count = temp`. -/
def KnuthVarUpdate (src : Option ℚ) (st : KnuthVarianceState) : KnuthVarianceState :=
  match src with
  | none => st
  | some x =>
    let temp : ℚ := 1 + (st.count : ℚ)
    let delta := x - st.mean
    let r := delta / temp
    { mean := st.mean + r,
      m2 := st.m2 + (st.count : ℚ) * delta * r,
      count := st.count + 1 }

/-- `AggregateFunctions::KnuthVarFinalize`: returns null for `count == 0`,
else the sample variance, as a plain double. The second component counts the
`ctx->Free` calls the function performs on the state buffer: this finalize
returns WITHOUT freeing on both paths. -/
def KnuthVarFinalize (st : KnuthVarianceState) : Option ℚ × Nat :=
  if st.count = 0 then (none, 0) else (some (ComputeKnuthVariance st false), 0)

/-- `AggregateFunctions::KnuthVarPopFinalize`: copies the state, frees the
buffer through `ctx` (hence the free count 1 on every path), then returns null
for `count == 0` and otherwise the population variance (rendered as a string
in the source; the numeric value is modeled). -/
def KnuthVarPopFinalize (st : KnuthVarianceState) : Option ℚ × Nat :=
  if st.count = 0 then (none, 1) else (some (ComputeKnuthVariance st true), 1)

/-- Histogram/reservoir constants: `NUM_BUCKETS`. -/
def NUM_BUCKETS : Nat := 100

/-- `NUM_SAMPLES_PER_BUCKET`. -/
def NUM_SAMPLES_PER_BUCKET : Nat := 200

/-- `NUM_SAMPLES = NUM_BUCKETS * NUM_SAMPLES_PER_BUCKET`. -/
def NUM_SAMPLES : Nat := NUM_BUCKETS * NUM_SAMPLES_PER_BUCKET

/-- `MAX_STRING_SAMPLE_LEN`. -/
def MAX_STRING_SAMPLE_LEN : Nat := 10

/-- Exact model of the `double key` values of reservoir samples, as a fraction
`num / den`. Every key the source constructs is either `-1` or
`(source_size - r) / source_size` with `source_size ≥ 1`, all exactly
representable, so the rational order used here coincides with the IEEE order
on the actual doubles; `den` is positive in every constructed key. -/
structure F64 where
  num : Int
  den : Int
deriving DecidableEq, Repr

/-- The double of an integer. -/
def F64.ofInt (n : Int) : F64 := ⟨n, 1⟩

/-- Strict order by cross multiplication (dens are positive). -/
def F64.lt (a b : F64) : Bool := decide (a.num * b.den < b.num * a.den)

/-- The `key >= 0` test of serialize (dens are positive). -/
def F64.nonneg (a : F64) : Bool := decide (0 ≤ a.num)

/-- `ReservoirSample<T> { T val; double key }`. The string specialization
stores at most `MAX_STRING_SAMPLE_LEN` bytes, enforced by the per-type sample
constructor (see `mkNumericSample` / `mkStringSample`). -/
structure ReservoirSample (α : Type) where
  val : α
  key : F64
deriving DecidableEq, Repr

/-- A value-initialized sample as produced by `ReservoirSampleInit` for every
physical slot: zeroed value bytes (the `default` of the payload type) and
`key = -1` from the default constructor. -/
instance (α : Type) [Inhabited α] : Inhabited (ReservoirSample α) :=
  ⟨⟨default, F64.ofInt (-1)⟩⟩

/-- `ReservoirSample<T>::ReservoirSample(const T&)` for the numeric and
timestamp types: stores the value and `key = -1`. -/
def mkNumericSample (α : Type) (v : α) : ReservoirSample α :=
  ⟨v, F64.ofInt (-1)⟩

/-- `ReservoirSample<StringVal>::ReservoirSample(const StringVal&)`: keeps at
most `MAX_STRING_SAMPLE_LEN` bytes of the string and `key = -1`. -/
def mkStringSample (s : List Nat) : ReservoirSample (List Nat) :=
  ⟨s.take MAX_STRING_SAMPLE_LEN, F64.ofInt (-1)⟩

/-- `ReservoirSampleState<T>`: the fixed `samples[NUM_SAMPLES]` array is
modeled by its filled prefix (length `numSamples`); `num_samples` (int32) and
`source_size` (int64) are nonnegative counters modeled as Nat (the claims
proved never approach their overflow); the `ranlux64_3` generator is modeled
by the number of draws consumed, the drawn values being supplied by an oracle
argument to update. -/
structure ReservoirSampleState (α : Type) where
  samples : List (ReservoirSample α)
  numSamples : Nat
  sourceSize : Nat
  rngConsumed : Nat
deriving DecidableEq, Repr

/-- `AggregateFunctions::ReservoirSampleInit`: zeroed, value-initialized
state: no filled samples, zero counters, fresh generator. -/
def ReservoirSampleInit (α : Type) : ReservoirSampleState α := ⟨[], 0, 0, 0⟩

/-- `AggregateFunctions::ReservoirSampleUpdate`: skips null. While fewer than
`NUM_SAMPLES` samples are held, appends the new sample (key `-1`).
Otherwise draws `r = GetNext64(source_size)` (the `o` oracle supplies the
draw, consumed from the state's generator) and replaces slot `r` when
`r < NUM_SAMPLES`. Always increments `source_size`. `mk` is the per-type
`ReservoirSample<T>` constructor. -/
def ReservoirSampleUpdate (α : Type) (o : Nat → Nat) (mk : α → ReservoirSample α)
    (src : Option α) (st : ReservoirSampleState α) : ReservoirSampleState α :=
  match src with
  | none => st
  | some v =>
    if st.numSamples < NUM_SAMPLES then
      { st with
          samples := st.samples.take st.numSamples ++ [mk v],
          numSamples := st.numSamples + 1,
          sourceSize := st.sourceSize + 1 }
    else
      let r := o st.rngConsumed
      { st with
          samples := if r < NUM_SAMPLES then st.samples.set r (mk v) else st.samples,
          sourceSize := st.sourceSize + 1,
          rngConsumed := st.rngConsumed + 1 }

/-- `AggregateFunctions::ReservoirSampleSerialize`: every sample in the filled
prefix whose key is still unassigned (`key < 0`) receives the approximated key
`((double) source_size - r) / source_size` where `r = rand() % num_samples`;
the global `rand()` stream is the oracle, indexed by sample position. -/
def ReservoirSampleSerialize (α : Type) (randOracle : Nat → Nat)
    (st : ReservoirSampleState α) : ReservoirSampleState α :=
  { st with
      samples := st.samples.mapIdx (fun i s =>
        if i < st.numSamples ∧ s.key.nonneg = false then
          let r := randOracle i % st.numSamples
          { s with key := ⟨(st.sourceSize : Int) - (r : Int), (st.sourceSize : Int)⟩ }
        else s) }

/-- `std::__push_heap(first, holeIndex, topIndex = 0, value)` with comparator
`SampleKeyGreater` (yielding a min-heap on key): while the hole is not the
root and the parent's key is greater than the value's key, the parent moves
into the hole; finally the value is placed. The fuel bounds the iterations;
`hole + 1` always suffices since the hole index strictly decreases. -/
def PushHeapValue (α : Type) [Inhabited α] :
    List (ReservoirSample α) → Nat → Nat → ReservoirSample α → List (ReservoirSample α)
  | l, 0, hole, value => l.set hole value
  | l, fuel + 1, hole, value =>
    if hole = 0 then l.set 0 value
    else
      let p := (hole - 1) / 2
      let pv := l.getD p default
      if value.key.lt pv.key then PushHeapValue α (l.set hole pv) fuel p value
      else l.set hole value

/-- `std::push_heap(first, first + i + 1)`: sifts the element at index `i` up
into the heap formed by the first `i` elements. -/
def HeapPushAt (α : Type) [Inhabited α] (l : List (ReservoirSample α)) (i : Nat) :
    List (ReservoirSample α) :=
  match l.get? i with
  | none => l
  | some v => PushHeapValue α l (i + 1) i v

/-- Hole-descent loop of `std::__adjust_heap`: the hole travels toward the
leaves, at each level promoting the child with the smaller key (libstdc++
tests `comp(first + secondChild, first + secondChild - 1)` with the
`SampleKeyGreater` comparator and decrements on true). Returns the rewritten
list and the final hole index; the fuel (`len` at the call site) bounds the
depth. -/
def AdjustLoop (α : Type) [Inhabited α] :
    List (ReservoirSample α) → Nat → Nat → Nat → List (ReservoirSample α) × Nat
  | l, _, hole, 0 => (l, hole)
  | l, len, hole, fuel + 1 =>
    if hole < (len - 1) / 2 then
      let sc0 := 2 * (hole + 1)
      let sc :=
        if (l.getD (sc0 - 1) default).key.lt (l.getD sc0 default).key then sc0 - 1
        else sc0
      AdjustLoop α (l.set hole (l.getD sc default)) len sc fuel
    else (l, hole)

/-- `std::__adjust_heap(first, 0, len, value)`: the hole descends to a leaf
(with the special final step when the heap has even length and the hole ends
at a node with only a left child), then the saved value is sifted up from the
leaf hole. -/
def AdjustHeap (α : Type) [Inhabited α] (l : List (ReservoirSample α)) (len : Nat)
    (value : ReservoirSample α) : List (ReservoirSample α) :=
  let step1 := AdjustLoop α l len 0 len
  let step2 :=
    if len % 2 = 0 ∧ step1.2 = (len - 2) / 2 then
      let sc := 2 * (step1.2 + 1)
      (step1.1.set step1.2 (step1.1.getD (sc - 1) default), sc - 1)
    else step1
  PushHeapValue α step2.1 (step2.2 + 1) step2.2 value

/-- `std::pop_heap(first, first + n)`: the root moves to position `n - 1`,
whose previous element is re-inserted into the heap on `[0, n - 1)`. -/
def PopHeap (α : Type) [Inhabited α] (l : List (ReservoirSample α)) (n : Nat) :
    List (ReservoirSample α) :=
  let value := l.getD (n - 1) default
  let l1 := l.set (n - 1) (l.getD 0 default)
  AdjustHeap α l1 (n - 1) value

/-- First loop of `AggregateFunctions::ReservoirSampleMerge`: while the
destination holds fewer than `NUM_SAMPLES` samples and source samples remain,
the next source sample is appended and `push_heap` re-establishes the min-heap
on keys. Returns the unconsumed source samples and the new destination. -/
def ReservoirSampleMergeLoop1 (α : Type) [Inhabited α] :
    List (ReservoirSample α) → ReservoirSampleState α →
      List (ReservoirSample α) × ReservoirSampleState α
  | [], dst => ([], dst)
  | x :: xs, dst =>
    if dst.numSamples < NUM_SAMPLES then
      let l := dst.samples.take dst.numSamples ++ [x]
      ReservoirSampleMergeLoop1 α xs
        { dst with
            samples := HeapPushAt α l dst.numSamples,
            numSamples := dst.numSamples + 1 }
    else (x :: xs, dst)

/-- Second loop of `AggregateFunctions::ReservoirSampleMerge`: each remaining
source sample replaces the heap minimum (pop, overwrite the last slot, push)
when its key exceeds the root key. -/
def ReservoirSampleMergeLoop2 (α : Type) [Inhabited α] :
    List (ReservoirSample α) → ReservoirSampleState α → ReservoirSampleState α
  | [], dst => dst
  | x :: xs, dst =>
    let dst2 :=
      if (dst.samples.getD 0 default).key.lt x.key then
        let l1 := PopHeap α dst.samples NUM_SAMPLES
        let l2 := l1.set (NUM_SAMPLES - 1) x
        { dst with samples := HeapPushAt α l2 (NUM_SAMPLES - 1) }
      else dst
    ReservoirSampleMergeLoop2 α xs dst2

/-- `AggregateFunctions::ReservoirSampleMerge`: runs the two loops over the
source's filled samples, then adds the source's `source_size` into the
destination. The destination's generator state is not touched and the
destination's samples end up in heap order, not in their original order. -/
def ReservoirSampleMerge (α : Type) [Inhabited α]
    (src dst : ReservoirSampleState α) : ReservoirSampleState α :=
  let step1 := ReservoirSampleMergeLoop1 α (src.samples.take src.numSamples) dst
  let dst2 := ReservoirSampleMergeLoop2 α step1.1 step1.2
  { dst2 with sourceSize := dst2.sourceSize + src.sourceSize }

/-- `SampleValLess` lifted over the per-type value order `lt`. -/
def SampleValLess (α : Type) (lt : α → α → Bool) (i j : ReservoirSample α) : Bool :=
  lt i.val j.val

/-- Insertion step used to model `std::sort` by a comparator: the element is
placed before the first list element it must not follow. -/
def InsertSorted (α : Type) (le : α → α → Bool) (x : α) : List α → List α
  | [] => [x]
  | y :: ys => if le x y then x :: y :: ys else y :: InsertSorted α le x ys

/-- Model of `std::sort(first, last, lt)`: produces a list sorted with respect
to the strict comparator `lt` (the order among ties is unspecified by the C++
standard; this model keeps them stable). -/
def SortByLess (α : Type) (lt : α → α → Bool) (l : List α) : List α :=
  l.foldr (fun x acc => InsertSorted α (fun a b => ! lt b a) x acc) []

/-- `SampleValLess` for integer-valued samples. -/
def IntSampleLess (a b : Int) : Bool := decide (a < b)

/-- `SampleValLess<StringVal>`: `memcmp` over the shorter truncated image,
ties broken by length. -/
def StringSampleLess : List Nat → List Nat → Bool
  | _, [] => false
  | [], _ :: _ => true
  | x :: xs, y :: ys =>
    if x < y then true else if y < x then false else StringSampleLess xs ys

/-- `PrintSample` for integer-valued samples: decimal ASCII form. -/
def PrintSampleInt (v : Int) : String := toString v

/-- `PrintSample<StringVal>`: the stored bytes as a string. -/
def PrintSampleString (s : List Nat) : String := String.mk (s.map Char.ofNat)

/-- `AggregateFunctions::AppxMedianFinalize`: sorts the filled samples by
value (`SampleValLess` over `lt`), prints the sample at index
`num_samples / 2`, frees the state buffer (the second component counts the
`ctx->Free` calls) and returns the printed string. There is no null-return
path. Reading index `num_samples / 2` of the physical array when the filled
prefix is shorter (only possible for `num_samples = 0`, slot 0) yields the
value-initialized sample, which `getD default` models. -/
def AppxMedianFinalize (α : Type) [Inhabited α] (lt : α → α → Bool)
    (print : α → String) (st : ReservoirSampleState α) : Option String × Nat :=
  let sorted := SortByLess (ReservoirSample α) (SampleValLess α lt)
    (st.samples.take st.numSamples)
  let s := sorted.getD (st.numSamples / 2) default
  (some (print s.val), 1)

/-- Folding a stream of possibly-null inputs into a fresh reservoir state. -/
def ReservoirSampleFold (α : Type) (o : Nat → Nat) (mk : α → ReservoirSample α)
    (inputs : List (Option α)) : ReservoirSampleState α :=
  inputs.foldl (fun st src => ReservoirSampleUpdate α o mk src st)
    (ReservoirSampleInit α)


/-- Partial StringConcat state from folding the bytes of "a" then "b" with
separator "-" into a fresh (null) state. -/
def concatStateFirst : Option StringConcatState :=
  StringConcatUpdate (some [98]) (some [45])
    (StringConcatUpdate (some [97]) (some [45]) none)

/-- Partial StringConcat state from folding the bytes of "c" with separator
"+" into a fresh (null) state. -/
def concatStateSecond : Option StringConcatState :=
  StringConcatUpdate (some [99]) (some [43]) none

/-- A 64-row bitmap whose row 0 has all 32 bits set (every other row zero). -/
def allOnesRow0Bitmap : List Nat := (2 ^ 32 - 1) :: List.replicate 63 0

/-- Reachable reservoir state: the integers 10 and 20 folded into a fresh
state and then serialized, with the `rand()` oracle drawing 0 then 1 (so the
assigned keys are `(2-0)/2` and `(2-1)/2`, in decreasing order). -/
def reservoirTwoSampleState : ReservoirSampleState Int :=
  ReservoirSampleSerialize Int (fun i => i)
    (ReservoirSampleFold Int (fun _ => 0) (mkNumericSample Int) [some 10, some 20])

/-- Claim C1: for a declared precision above 19 the argument type's byte size
is 16, and `DecimalAvgUpdate` is claimed to add the full 16-byte value into
the 128-bit sum. The source instead adds the `val4` sub-field in the 16-byte
case: for the input value `2^32` (whose low 32 bits are zero) the sum stays 0
although the full value is nonzero — while the decimal `SumUpdate`, by
contrast, adds the full `val16` for precision above 19. -/
theorem decimalAvgUpdate_adds_val4_for_width16 :
    DecimalAvgUpdate 16 (some (2 ^ 32)) ⟨0, 0⟩ = ⟨0, 1⟩ ∧
    SumUpdate 38 (some (2 ^ 32)) (some 0) = some (2 ^ 32) ∧
    (2 ^ 32 : Int) ≠ 0 := by decide

/-- Claim C2 counterexample: folding ["a","b"] with "-", folding ["c"] with
"+", merging the second state into the first and finalizing does NOT return
"a-b-c" (bytes [97,45,98,45,99]). -/
theorem stringConcat_merge_mixed_sep_counterexample :
    StringConcatFinalize (StringConcatMerge concatStateSecond concatStateFirst)
      ≠ some [97, 45, 98, 45, 99] := by decide

/-- Claim C2 amended: the merge appends the source payload after the source's
header, and that payload begins with the source's own first separator "+", so
finalizing returns "a-b+c" (bytes [97,45,98,43,99]): only the destination's
header and first separator are stripped. -/
theorem stringConcat_merge_mixed_sep_amended :
    StringConcatFinalize (StringConcatMerge concatStateSecond concatStateFirst)
      = some [97, 45, 98, 43, 99] := by decide

/-- Claim C3: `KnuthVarFinalize` (the sample-variance finalize) returns on
both of its paths without ever calling `ctx->Free` on the state buffer, so its
free count is 0 rather than the claimed exactly-once; its sibling
`KnuthVarPopFinalize` does free exactly once. -/
theorem knuthVarFinalize_does_not_free :
    (KnuthVarFinalize ⟨2, 8, 4⟩).2 = 0 ∧ (KnuthVarPopFinalize ⟨2, 8, 4⟩).2 = 1 := by
  decide

/-- Claim C4: for a row whose 32 bits are all set, the run-length loop of
`DistinceEstimateFinalize` evaluates the bit access at column index 32 (the
bit test is the first conjunct of the loop condition, before the bound check),
contradicting the claim that no access at column 32 is ever evaluated; the
resulting run length is 32. -/
theorem distinctEstimate_row_run_accesses_col32 :
    (0, 32) ∈ DistinceEstimateAccesses allOnesRow0Bitmap ∧
    (PcRowRun allOnesRow0Bitmap 0).1 = 32 := by decide

/-- Claim C5 counterexample: merging the reachable serialized two-sample
reservoir state into a freshly initialized state rebuilds the destination
array as a min-heap on keys, reversing the samples ([10, 20] becomes
[20, 10]), so `merge(init(), s)` is not equal to `s`. -/
theorem reservoir_merge_into_fresh_counterexample :
    (ReservoirSampleMerge Int reservoirTwoSampleState
        (ReservoirSampleInit Int)).samples.map (fun s => s.val) = [20, 10] ∧
    reservoirTwoSampleState.samples.map (fun s => s.val) = [10, 20] ∧
    ReservoirSampleMerge Int reservoirTwoSampleState (ReservoirSampleInit Int)
      ≠ reservoirTwoSampleState := by decide

/-- Claim C5 amended: merging a freshly initialized state into `s` leaves `s`
unchanged for the reservoir-sample, string-concat and average operators, and
merging `s` into a freshly initialized state yields `s` for string-concat and
average (exact arithmetic); for the reservoir operator the latter direction
fails because the destination array is rebuilt in heap order (see the
counterexample). -/
theorem merge_identity_amended :
    (∀ s : ReservoirSampleState Int,
        ReservoirSampleMerge Int (ReservoirSampleInit Int) s = s) ∧
    (∀ st : Option StringConcatState, StringConcatMerge none st = st) ∧
    (∀ st : Option StringConcatState, StringConcatMerge st none = st) ∧
    (∀ st : AvgState, AvgMerge AvgInitState st = st) ∧
    (∀ st : AvgState, AvgMerge st AvgInitState = st) := by
  refine ⟨fun s => rfl, fun st => rfl, fun st => ?_, fun st => ?_, fun st => ?_⟩
  · cases st <;> rfl
  · cases st; simp [AvgMerge, AvgInitState]
  · cases st; simp [AvgMerge, AvgInitState]

/-- Claim C6: merge commutativity, bit-exact, for the bitmap, register and
integer operators: `PcMerge` (byte-wise OR of 256-byte bitmaps), `HllMerge`
(register-wise max of 1024 bytes), `CountMerge` (64-bit integer addition). -/
theorem pcMerge_hllMerge_countMerge_comm :
    (∀ a b : List Nat, a.length = 256 → b.length = 256 → PcMerge a b = PcMerge b a) ∧
    (∀ a b : List Nat, a.length = 1024 → b.length = 1024 →
        HllMerge a b = HllMerge b a) ∧
    (∀ a b : Int, CountMerge a b = CountMerge b a) := by
  refine ⟨fun a b _ _ => ?_, fun a b _ _ => ?_, fun a b => ?_⟩
  · exact List.zipWith_comm_of_comm _ (fun x y => Nat.lor_comm x y) b a
  · exact List.zipWith_comm_of_comm _ (fun x y => Nat.max_comm x y) b a
  · simp [CountMerge, Int.add_comm]

/-- Witness for C6 at concrete valid states: 256-byte bitmaps, 1024-byte
register arrays, and two concrete counts. -/
theorem pcMerge_hllMerge_countMerge_comm_witness :
    (List.replicate 256 (3 : Nat)).length = 256 ∧
    (List.replicate 1024 (7 : Nat)).length = 1024 ∧
    PcMerge (List.replicate 256 3) (List.replicate 256 12)
      = PcMerge (List.replicate 256 12) (List.replicate 256 3) ∧
    HllMerge (List.replicate 1024 7) (List.replicate 1024 2)
      = HllMerge (List.replicate 1024 2) (List.replicate 1024 7) ∧
    CountMerge 5 9 = CountMerge 9 5 := by
  refine ⟨by simp, by simp, ?_, ?_, ?_⟩
  · exact pcMerge_hllMerge_countMerge_comm.1 _ _ (by simp) (by simp)
  · exact pcMerge_hllMerge_countMerge_comm.2.1 _ _ (by simp) (by simp)
  · exact pcMerge_hllMerge_countMerge_comm.2.2 5 9

/-- Claim C7: every update function that takes an input value returns the
state unchanged on a null input — Count, Avg, TimestampAvg, DecimalAvg, the
Sum template, decimal SumUpdate, Min, Max, StringConcat, Pc, Pcsa, Hll,
KnuthVar and ReservoirSample updates. -/
theorem update_null_skip :
    (∀ (σ : Type) (dst : Int), CountUpdate σ none dst = dst) ∧
    (∀ st : AvgState, AvgUpdate none st = st) ∧
    (∀ (τ : Type) (conv : τ → ℚ) (st : AvgState), TimestampAvgUpdate τ conv none st = st) ∧
    (∀ (w : Nat) (st : DecimalAvgState), DecimalAvgUpdate w none st = st) ∧
    (∀ dst : Option ℚ, Sum none dst = dst) ∧
    (∀ (p : Nat) (dst : Option Int), SumUpdate p none dst = dst) ∧
    (∀ (σ : Type) (lt : σ → σ → Bool) (dst : Option σ), Min σ lt none dst = dst) ∧
    (∀ (σ : Type) (gt : σ → σ → Bool) (dst : Option σ), Max σ gt none dst = dst) ∧
    (∀ (sep : Option (List Nat)) (st : Option StringConcatState),
        StringConcatUpdate none sep st = st) ∧
    (∀ (σ : Type) (h : σ → Nat → Nat) (bm : List Nat), PcUpdate σ h none bm = bm) ∧
    (∀ (σ : Type) (h : σ → Nat) (bm : List Nat), PcsaUpdate σ h none bm = (bm, false)) ∧
    (∀ (σ : Type) (h : σ → Nat) (regs : List Nat), HllUpdate σ h none regs = regs) ∧
    (∀ st : KnuthVarianceState, KnuthVarUpdate none st = st) ∧
    (∀ (α : Type) (o : Nat → Nat) (mk : α → ReservoirSample α)
        (st : ReservoirSampleState α), ReservoirSampleUpdate α o mk none st = st) := by
  refine ⟨?_, ?_, ?_, ?_, ?_, ?_, ?_, ?_, ?_, ?_, ?_, ?_, ?_, ?_⟩ <;> intros <;> rfl

/-- One reservoir update preserves the counter invariant: the number of filled
samples is the source size capped at `NUM_SAMPLES`, and a non-null input adds
one to the source size. -/
theorem reservoirUpdateCounters (α : Type) (o : Nat → Nat)
    (mk : α → ReservoirSample α) (src : Option α) (st : ReservoirSampleState α)
    (h : st.numSamples = min st.sourceSize NUM_SAMPLES) :
    (ReservoirSampleUpdate α o mk src st).sourceSize
        = st.sourceSize + (if src.isSome then 1 else 0) ∧
    (ReservoirSampleUpdate α o mk src st).numSamples
        = min (ReservoirSampleUpdate α o mk src st).sourceSize NUM_SAMPLES := by
  cases src with
  | none => simp [ReservoirSampleUpdate, h]
  | some v =>
    by_cases hlt : st.numSamples < NUM_SAMPLES
    · have e1 : (ReservoirSampleUpdate α o mk (some v) st).sourceSize
          = st.sourceSize + 1 := by simp [ReservoirSampleUpdate, hlt]
      have e2 : (ReservoirSampleUpdate α o mk (some v) st).numSamples
          = st.numSamples + 1 := by simp [ReservoirSampleUpdate, hlt]
      refine ⟨by simp [e1], ?_⟩
      rw [e2, e1]; omega
    · have e1 : (ReservoirSampleUpdate α o mk (some v) st).sourceSize
          = st.sourceSize + 1 := by simp [ReservoirSampleUpdate, hlt]
      have e2 : (ReservoirSampleUpdate α o mk (some v) st).numSamples
          = st.numSamples := by simp [ReservoirSampleUpdate, hlt]
      refine ⟨by simp [e1], ?_⟩
      rw [e2, e1]; omega

/-- Folding any stream from any state satisfying the counter invariant keeps
it, and adds the number of non-null inputs to the source size. -/
theorem reservoirFoldlCounters (α : Type) (o : Nat → Nat)
    (mk : α → ReservoirSample α) (inputs : List (Option α)) :
    ∀ st : ReservoirSampleState α, st.numSamples = min st.sourceSize NUM_SAMPLES →
      (inputs.foldl (fun s i => ReservoirSampleUpdate α o mk i s) st).sourceSize
          = st.sourceSize + inputs.countP Option.isSome ∧
      (inputs.foldl (fun s i => ReservoirSampleUpdate α o mk i s) st).numSamples
          = min ((inputs.foldl (fun s i => ReservoirSampleUpdate α o mk i s) st).sourceSize)
              NUM_SAMPLES := by
  induction inputs with
  | nil => intro st h; simp [h]
  | cons hd tl ih =>
    intro st h
    have hstep := reservoirUpdateCounters α o mk hd st h
    have hrec := ih (ReservoirSampleUpdate α o mk hd st) hstep.2
    simp only [List.foldl_cons]
    refine ⟨?_, hrec.2⟩
    rw [hrec.1, hstep.1]
    cases hd with
    | none => simp [List.countP_cons]
    | some v => simp [List.countP_cons]; omega

/-- Claim C8: folding any sequence of updates into a freshly initialized
reservoir state yields `source_size` equal to the number of non-null inputs
and `num_samples = min(source_size, 20000)`, for every draw oracle. -/
theorem reservoir_update_counters_invariant (α : Type) (o : Nat → Nat)
    (mk : α → ReservoirSample α) (inputs : List (Option α)) :
    (ReservoirSampleFold α o mk inputs).sourceSize = inputs.countP Option.isSome ∧
    (ReservoirSampleFold α o mk inputs).numSamples
        = min (ReservoirSampleFold α o mk inputs).sourceSize NUM_SAMPLES := by
  have h := reservoirFoldlCounters α o mk inputs (ReservoirSampleInit α)
    (by simp [ReservoirSampleInit])
  simpa [ReservoirSampleFold, ReservoirSampleInit] using h

/-- Claim C9 counterexample: under the spec's value-library contract the
32-bit hash is an arbitrary function; for a hash oracle returning 1 (nonzero,
below 64) on a non-null input, `PcsaUpdate` reaches the unguarded
`__builtin_ctz(0)` case: the instrumentation flag is set. -/
theorem pcsaUpdate_unguarded_ctz_zero_counterexample :
    (PcsaUpdate Unit (fun _ => 1) (some ()) PcInitState).2 = true := by decide

/-- Claim C9 amended: the undefined `ctz(0)` case is reached exactly when the
hash of the input is nonzero and strictly below 64 (then `hash / 64 == 0` and
the only guard, `hash == 0`, does not fire); hashes that are 0 or at least 64
never reach it. -/
theorem pcsaUpdate_unguarded_ctz_zero_amended :
    ∀ (σ : Type) (h : σ → Nat) (v : σ) (bm : List Nat),
      ((PcsaUpdate σ h (some v) bm).2 = true ↔ (h v ≠ 0 ∧ h v < 64)) := by
  intro σ h v bm
  have h64 : h v / NUM_PC_BITMAPS = 0 ↔ h v < 64 :=
    Nat.div_eq_zero_iff (by norm_num [NUM_PC_BITMAPS])
  simp [PcsaUpdate, h64]

/-- Claim C10: `AppxMedianFinalize` applied to a freshly initialized reservoir
state (no non-null value folded, `num_samples = 0`) does not return null: it
reads the value-initialized sample at index 0 and returns its printed form —
"0" for the integer instantiation and the empty string for the string
instantiation — unlike the null-on-empty `AvgGetValue`. -/
theorem appxMedianFinalize_empty_not_null :
    (AppxMedianFinalize Int IntSampleLess PrintSampleInt
        (ReservoirSampleInit Int)).1 = some "0" ∧
    (AppxMedianFinalize (List Nat) StringSampleLess PrintSampleString
        (ReservoirSampleInit (List Nat))).1 = some "" ∧
    AvgGetValue AvgInitState = none := by
  refine ⟨by decide, by decide, rfl⟩

end Impala
